import Mathlib

/-!
# Verification of the dev-journal entry store and query engine

Shallow embedding of the core of the `dev-journal` repository:
`main.py` (the complete CLI variant) and the prototype variant
`journal/db.py` / `journal/models.py`.  Python machine behaviour is made
explicit: exceptions become `Except`, the JSON backing file becomes an
explicit `FileContent` value threaded through the stateful operations,
and the `uuid4` random source becomes an explicit supply `Nat → String`
consumed in order.
-/

namespace DevJournal

/-- Python exceptions that the modelled code can raise.
`valueError` carries the message built by the f-string in the source;
`typeError` stands for the `TypeError` raised when `JournalEntry(**entry)`
is applied to a non-mapping or ill-typed JSON item; `indexError` is the
`IndexError` from `most_common(1)[0]` on an empty counter.
`nonTermination` is not a Python exception: it marks the truncation of the
unbounded `while new_id in existing_ids` retry loop once the modelled
supply of uuid draws (the fuel) is exhausted. -/
inductive PyError where
  | valueError (msg : String)
  | typeError
  | indexError
  | nonTermination
deriving DecidableEq, Repr

/-- `MAX_TITLE_LENGHT` from `main.py` / `journal/models.py` (sic). -/
def MAX_TITLE_LENGHT : Nat := 50

/-- `MAX_CONTENT_LENGHT` from `main.py` / `journal/models.py` (sic). -/
def MAX_CONTENT_LENGHT : Nat := 200

/-- The `JournalEntry` dataclass of `main.py` (identical in
`journal/models.py`): `id`, `title`, `content`, `date` are strings and
`tags` a list of strings.  Entries are immutable after construction. -/
structure JournalEntry where
  id : String
  title : String
  content : String
  date : String
  tags : List String
deriving DecidableEq, Repr

/-- `JournalEntry.__post_init__`: constructing an entry raises
`ValueError` when the title exceeds `MAX_TITLE_LENGHT` characters or the
content exceeds `MAX_CONTENT_LENGHT` characters; otherwise the entry is
built from the given field values.  This is the only place the length
checks happen — entries are never mutated afterwards. -/
def mkJournalEntry (id title content date : String) (tags : List String) :
    Except PyError JournalEntry :=
  if MAX_TITLE_LENGHT < title.length then
    .error (.valueError ("Title cannot exceed " ++ toString MAX_TITLE_LENGHT ++ " characters."))
  else if MAX_CONTENT_LENGHT < content.length then
    .error (.valueError ("Content cannot exceed " ++ toString MAX_CONTENT_LENGHT ++ " characters."))
  else
    .ok ⟨id, title, content, date, tags⟩

/-- An entry satisfies the construction invariant. -/
def validEntry (e : JournalEntry) : Prop :=
  e.title.length ≤ MAX_TITLE_LENGHT ∧ e.content.length ≤ MAX_CONTENT_LENGHT

instance (e : JournalEntry) : Decidable (validEntry e) := by
  unfold validEntry; infer_instance

/-- JSON values, as produced by Python's `json.load`. -/
inductive Json where
  | jnull
  | jbool (b : Bool)
  | jnum (n : Int)
  | jstr (s : String)
  | jarr (items : List Json)
  | jobj (fields : List (String × Json))

/-- The state of the backing file `journal.json`, abstracted to the three
cases the code distinguishes: an empty file and a file whose text is not
syntactically valid JSON both make `json.load` raise `JSONDecodeError`;
otherwise `json.load` yields a JSON value. -/
inductive FileContent where
  | empty
  | invalidSyntax
  | json (j : Json)

/-- Python iteration over the value returned by `json.load`
(`for entry in data`): a list yields its items, a dict its keys, a string
its characters; numbers, booleans and `None` raise `TypeError`. -/
def pyIter : Json → Except PyError (List Json)
  | .jarr items => .ok items
  | .jobj fields => .ok (fields.map (fun kv => Json.jstr kv.fst))
  | .jstr s => .ok (s.toList.map (fun c => Json.jstr (String.singleton c)))
  | _ => .error .typeError

/-- Keyword names accepted by `JournalEntry(**entry)`. -/
def entryKeys : List String := ["id", "title", "content", "date", "tags"]

def asString : Json → Option String
  | .jstr s => some s
  | _ => none

def mapOption (g : α → Option β) : List α → Option (List β)
  | [] => some []
  | x :: xs =>
      match g x with
      | none => none
      | some y =>
          match mapOption g xs with
          | none => none
          | some ys => some (y :: ys)

def asStringList : Json → Option (List String)
  | .jarr items => mapOption asString items
  | _ => none

/-- `JournalEntry(**entry)` applied to one deserialized item.  Only a JSON
object can be splatted as keyword arguments (anything else raises
`TypeError`), an unknown key raises `TypeError`, and a well-formed object
goes through `__post_init__` validation via `mkJournalEntry`.
Modelling choices, immaterial to every claim below: all five keys are
required to be present (the dataclass would default a missing `id`/`date`
from module-load randomness, which no state written by `save_entries`
ever omits), and each value must have the field's type (the dataclass
stores ill-typed values unchecked; such objects never arise from
`save_entries` either). -/
def entryFromJson : Json → Except PyError JournalEntry
  | .jobj fields =>
      if fields.all (fun kv => kv.fst ∈ entryKeys) then
        match fields.lookup "id", fields.lookup "title", fields.lookup "content",
              fields.lookup "date", fields.lookup "tags" with
        | some i, some t, some c, some d, some tg =>
            match asString i, asString t, asString c, asString d, asStringList tg with
            | some i, some t, some c, some d, some tg => mkJournalEntry i t c d tg
            | _, _, _, _, _ => .error .typeError
        | _, _, _, _, _ => .error .typeError
      else .error .typeError
  | _ => .error .typeError

/-- `asdict(entry)`: the dataclass fields in declaration order. -/
def entryToJson (e : JournalEntry) : Json :=
  .jobj [("id", .jstr e.id), ("title", .jstr e.title), ("content", .jstr e.content),
         ("date", .jstr e.date), ("tags", .jarr (e.tags.map Json.jstr))]

/-- The list comprehension `[JournalEntry(**entry) for entry in data]`:
items are converted left to right and the first exception propagates. -/
def mapExcept (g : α → Except PyError β) : List α → Except PyError (List β)
  | [] => .ok []
  | x :: xs =>
      match g x with
      | .error e => .error e
      | .ok y =>
          match mapExcept g xs with
          | .error e => .error e
          | .ok ys => .ok (y :: ys)

/-- `load_entries` from `main.py` (textually identical in
`journal/db.py` as `JournalDatabase.load_entries`): `json.load` the file;
a `JSONDecodeError` (empty file or bad syntax) is caught and yields `[]`;
any other exception raised while building the entries propagates. -/
def load_entries (f : FileContent) : Except PyError (List JournalEntry) :=
  match f with
  | .empty => .ok []
  | .invalidSyntax => .ok []
  | .json j =>
      match pyIter j with
      | .error e => .error e
      | .ok items => mapExcept entryFromJson items

/-- `save_entries`: serialize `[asdict(entry) for entry in entries]` and
overwrite the whole file. -/
def save_entries (entries : List JournalEntry) : FileContent :=
  .json (.jarr (entries.map entryToJson))

/-- `get_existing_ids`. -/
def get_existing_ids (entries : List JournalEntry) : List String :=
  entries.map JournalEntry.id

/-- Python `str.lower()`, character by character (ASCII-faithful; Python
also lowers non-ASCII letters, which no input below exercises). -/
def pyLower (s : String) : String :=
  ⟨s.data.map Char.toLower⟩

/-- Python `str.strip()`: drop whitespace from both ends (ASCII-faithful;
Python also strips some Unicode whitespace). -/
def pyStrip (s : String) : String :=
  ⟨((s.data.dropWhile Char.isWhitespace).reverse.dropWhile Char.isWhitespace).reverse⟩

/-- The id-generation of `add_entry`: `new_id = str(uuid4())`, then
`while new_id in existing_ids: new_id = str(uuid4())`.  The random draws
are the supply `ids 0, ids 1, ...` consumed from index `k`; `fuel` bounds
how many draws the modelled loop may take (the Python loop is unbounded;
running out of fuel stands for the loop still spinning).  The
`if existing_ids:` split in the source is behaviourally the same search,
since with no existing ids the first draw is already fresh. -/
def find_fresh (ids : Nat → String) (existing : List String) : Nat → Nat → Option String
  | _, 0 => none
  | k, fuel + 1 =>
      if ids k ∈ existing then find_fresh ids existing (k + 1) fuel
      else some (ids k)

/-- `tags = [tag.strip() for tag in tags] if tags else []`: `None` and the
empty list are falsy and give `[]`; otherwise each tag is stripped of
surrounding whitespace (empty results are kept, not dropped). -/
def strip_tags : Option (List String) → List String
  | some tags => if tags = [] then [] else tags.map pyStrip
  | none => []

/-- `add_entry(title, content, tags)` from `main.py` (same code as
`JournalDatabase.add_entry` in `journal/db.py`): load the collection,
generate a fresh id against the existing ids, strip the tags, construct
the entry (which validates title/content lengths and stamps `date` with
`datetime.now().isoformat()`, passed here as `now`), append it and save.
Result: the outcome of the call paired with the file state after it — an
exception propagates before `save_entries` runs, leaving the file as it
was. -/
def add_entry (ids : Nat → String) (fuel : Nat) (now : String) (f : FileContent)
    (title content : String) (tags : Option (List String)) :
    Except PyError Unit × FileContent :=
  match load_entries f with
  | .error e => (.error e, f)
  | .ok entries =>
      match find_fresh ids (get_existing_ids entries) 0 fuel with
      | none => (.error .nonTermination, f)
      | some new_id =>
          match mkJournalEntry new_id title content now (strip_tags tags) with
          | .error e => (.error e, f)
          | .ok journal_entry => (.ok (), save_entries (entries ++ [journal_entry]))

/-- `delete_entry(id)` from `main.py` (same code as
`JournalDatabase.delete_entry`): load, raise `ValueError` when the id is
not among the existing ids, otherwise keep the entries whose id differs
and save them. -/
def delete_entry (f : FileContent) (id : String) : Except PyError Unit × FileContent :=
  match load_entries f with
  | .error e => (.error e, f)
  | .ok entries =>
      if id ∈ get_existing_ids entries then
        (.ok (), save_entries (entries.filter (fun entry => entry.id != id)))
      else
        (.error (.valueError ("Entry with ID '" ++ id ++ "' not found.")), f)

/-- `search_entries_by_tags(entries, tags)` from `main.py`: empty `tags`
is falsy and returns the input unchanged; otherwise the requested tags
are normalized by `tag.lower().strip()` and an entry is kept when any
normalized requested tag occurs among its lowercased tags. -/
def search_entries_by_tags (entries : List JournalEntry) (tags : List String) :
    List JournalEntry :=
  if tags = [] then entries
  else
    let tags_lower := tags.map (fun tag => pyStrip (pyLower tag))
    entries.filter (fun entry =>
      let entry_tags_lower := entry.tags.map pyLower
      tags_lower.any (fun tag => entry_tags_lower.contains tag))

/-- All tags of all entries in order:
the generator `tag for entry in entries for tag in entry.tags`. -/
def all_tags (entries : List JournalEntry) : List String :=
  (entries.map JournalEntry.tags).flatten

/-- The distinct elements of a list, each at its first occurrence, in
first-occurrence order: the key order of a Python `Counter` built from
the list. -/
def distinct_first : List String → List String
  | [] => []
  | t :: ts => t :: (distinct_first ts).filter (fun s => s != t)

/-- `Counter(...).most_common(1)`: scan the counter's keys in insertion
order keeping the first key of maximal count (the underlying
`heapq.nlargest(1, ..., key=count)` is equivalent to a stable descending
sort by count, so ties go to the earliest-inserted key). -/
def pick_most_common (cnt : String → Nat) : Option String → List String → Option String
  | acc, [] => acc
  | none, t :: ts => pick_most_common cnt (some t) ts
  | some b, t :: ts => pick_most_common cnt (some (if cnt b < cnt t then t else b)) ts

/-- `most_common_tag(entries)` from `main.py` (same code as
`JournalDatabase.most_common_tag`):
`Counter(tag for entry in entries for tag in entry.tags).most_common(1)[0][0]`.
On a tagless collection `most_common(1)` is `[]` and `[0]` raises
`IndexError`. -/
def most_common_tag (entries : List JournalEntry) : Except PyError String :=
  match pick_most_common (fun t => (all_tags entries).count t) none
      (distinct_first (all_tags entries)) with
  | some t => .ok t
  | none => .error .indexError

namespace JournalDatabase

/-- `JournalDatabase.search_entries_by_tags(tags)` from `journal/db.py`:
loads the collection (its `load_entries` is textually identical to
`load_entries` above), returns it when `tags` is empty, and otherwise
falls off the end of the function — the filtering line is commented out —
so Python returns `None`. -/
def search_entries_by_tags (f : FileContent) (tags : List String) :
    Except PyError (Option (List JournalEntry)) :=
  match load_entries f with
  | .error e => .error e
  | .ok entries =>
      if tags = [] then .ok (some entries)
      else .ok none

end JournalDatabase

/-- One `add` call of a sequence: its uuid draws, the fuel bounding the
retry loop, the `datetime.now()` stamp, and the user arguments. -/
structure AddCall where
  ids : Nat → String
  fuel : Nat
  now : String
  title : String
  content : String
  tags : Option (List String)

/-- Run a sequence of `add_entry` calls, each seeing the file state left
by the previous one (a failed call leaves the state unchanged). -/
def run_adds : List AddCall → FileContent → FileContent
  | [], f => f
  | c :: cs, f => run_adds cs (add_entry c.ids c.fuel c.now f c.title c.content c.tags).2

/-- The tag filter exactly as the spec sentence states it: with a
non-empty request, an entry is kept iff one of its tags, compared
case-insensitively, equals one of the requested tags (no other
normalization). -/
def filterByTags_spec (entries : List JournalEntry) (tags : List String) :
    List JournalEntry :=
  if tags = [] then entries
  else entries.filter (fun entry =>
    entry.tags.any (fun et => tags.any (fun rt => pyLower et == pyLower rt)))

/-- The tag filter as the source implements it, stated declaratively: the
requested tag is additionally stripped of surrounding whitespace after
lowercasing. -/
def filterByTags_impl (entries : List JournalEntry) (tags : List String) :
    List JournalEntry :=
  if tags = [] then entries
  else entries.filter (fun entry =>
    entry.tags.any (fun et => tags.any (fun rt => pyLower et == pyStrip (pyLower rt))))

/-- A string of `n` letters, for exercising the length bounds. -/
def aChars (n : Nat) : String :=
  ⟨List.replicate n 'a'⟩

/-- A concrete entry with one tag, for concrete instantiations. -/
def entryX : JournalEntry :=
  ⟨"i1", "t", "c", "d", ["x"]⟩

/-- Two concrete entries sharing the id `"x"`: a backing file holding
both is syntactically a perfectly well-formed store. -/
def dupA : JournalEntry :=
  ⟨"x", "first", "", "d", []⟩

def dupB : JournalEntry :=
  ⟨"x", "second", "", "d", []⟩

/-!
## Helper lemmas
-/

theorem mkJournalEntry_long_error (i t c d : String) (tags : List String)
    (h : 51 ≤ t.length ∨ 201 ≤ c.length) :
    ∃ msg, mkJournalEntry i t c d tags = .error (.valueError msg) := by
  unfold mkJournalEntry
  rcases h with h | h
  · rw [if_pos (by simp only [MAX_TITLE_LENGHT]; omega)]
    exact ⟨_, rfl⟩
  · by_cases ht : MAX_TITLE_LENGHT < t.length
    · rw [if_pos ht]
      exact ⟨_, rfl⟩
    · rw [if_neg ht, if_pos (by simp only [MAX_CONTENT_LENGHT]; omega)]
      exact ⟨_, rfl⟩

theorem mkJournalEntry_ok_iff (i t c d : String) (tags : List String) (e : JournalEntry) :
    mkJournalEntry i t c d tags = .ok e ↔
      e = ⟨i, t, c, d, tags⟩ ∧ t.length ≤ 50 ∧ c.length ≤ 200 := by
  unfold mkJournalEntry
  constructor
  · intro h
    by_cases ht : MAX_TITLE_LENGHT < t.length
    · rw [if_pos ht] at h
      exact absurd h (by simp)
    · rw [if_neg ht] at h
      by_cases hc : MAX_CONTENT_LENGHT < c.length
      · rw [if_pos hc] at h
        exact absurd h (by simp)
      · rw [if_neg hc] at h
        simp only [MAX_TITLE_LENGHT] at ht
        simp only [MAX_CONTENT_LENGHT] at hc
        exact ⟨(Except.ok.injEq _ _ ▸ h).symm, by omega, by omega⟩
  · rintro ⟨rfl, ht, hc⟩
    rw [if_neg (by simp only [MAX_TITLE_LENGHT]; omega),
        if_neg (by simp only [MAX_CONTENT_LENGHT]; omega)]

theorem mkJournalEntry_ok_valid (i t c d : String) (tags : List String) (e : JournalEntry)
    (h : mkJournalEntry i t c d tags = .ok e) : e = ⟨i, t, c, d, tags⟩ ∧ validEntry e := by
  obtain ⟨he, ht, hc⟩ := (mkJournalEntry_ok_iff i t c d tags e).mp h
  exact ⟨he, by subst he; exact ⟨ht, hc⟩⟩

theorem mapOption_asString_map (ts : List String) :
    mapOption asString (ts.map Json.jstr) = some ts := by
  induction ts with
  | nil => rfl
  | cons t ts ih => simp [mapOption, asString, ih]

theorem entryFromJson_entryToJson (e : JournalEntry) (h : validEntry e) :
    entryFromJson (entryToJson e) = .ok e := by
  obtain ⟨i, t, c, d, tags⟩ := e
  simp [entryFromJson, entryToJson, entryKeys, List.lookup, asString, asStringList,
    mapOption_asString_map]
  exact (mkJournalEntry_ok_iff i t c d tags ⟨i, t, c, d, tags⟩).mpr ⟨rfl, h.1, h.2⟩

theorem mapExcept_entryFromJson_map (es : List JournalEntry)
    (h : ∀ e ∈ es, validEntry e) :
    mapExcept entryFromJson (es.map entryToJson) = .ok es := by
  induction es with
  | nil => rfl
  | cons e es ih =>
      simp only [List.map_cons, mapExcept]
      rw [entryFromJson_entryToJson e (h e (by simp))]
      rw [ih (fun x hx => h x (by simp [hx]))]

/-- Loading right after saving recovers a valid collection exactly. -/
theorem load_entries_save_entries (es : List JournalEntry)
    (h : ∀ e ∈ es, validEntry e) :
    load_entries (save_entries es) = .ok es := by
  simp only [load_entries, save_entries, pyIter]
  exact mapExcept_entryFromJson_map es h

theorem entryFromJson_valid (j : Json) (e : JournalEntry)
    (h : entryFromJson j = .ok e) : validEntry e := by
  unfold entryFromJson at h
  repeat' split at h
  all_goals first
    | exact (mkJournalEntry_ok_valid _ _ _ _ _ _ h).2
    | exact absurd h (fun hc => Except.noConfusion hc)

theorem mapExcept_ok_forall {g : α → Except PyError β} (P : β → Prop)
    (hg : ∀ x y, g x = .ok y → P y) :
    ∀ (xs : List α) (ys : List β), mapExcept g xs = .ok ys → ∀ y ∈ ys, P y := by
  intro xs
  induction xs with
  | nil =>
      intro ys h y hy
      simp only [mapExcept] at h
      cases h
      simp at hy
  | cons x xs ih =>
      intro ys h y hy
      simp only [mapExcept] at h
      cases hgx : g x with
      | error e => simp only [hgx] at h; exact absurd h (by simp)
      | ok b =>
          simp only [hgx] at h
          cases hrest : mapExcept g xs with
          | error e => simp only [hrest] at h; exact absurd h (by simp)
          | ok bs =>
              simp only [hrest] at h
              cases h
              rcases List.mem_cons.mp hy with rfl | hy2
              · exact hg x y hgx
              · exact ih bs hrest y hy2

/-- Every collection that `load_entries` returns satisfies the entry
invariant: stored entries go through `__post_init__` again on load. -/
theorem load_entries_valid (f : FileContent) (es : List JournalEntry)
    (h : load_entries f = .ok es) : ∀ e ∈ es, validEntry e := by
  unfold load_entries at h
  split at h
  · cases h; simp
  · cases h; simp
  · split at h
    · exact absurd h (by simp)
    · exact mapExcept_ok_forall validEntry (fun j e => entryFromJson_valid j e) _ es h

/-- The id produced by the retry loop is fresh: it never collides with an
existing id. -/
theorem find_fresh_not_mem (ids : Nat → String) (existing : List String) :
    ∀ fuel k nid, find_fresh ids existing k fuel = some nid → nid ∉ existing := by
  intro fuel
  induction fuel with
  | zero => intro k nid h; exact absurd h (by simp [find_fresh])
  | succ fuel ih =>
      intro k nid h
      unfold find_fresh at h
      split at h
      · exact ih (k + 1) nid h
      · cases h
        next hmem => exact hmem

theorem strip_tags_eq_map (tg : Option (List String)) :
    strip_tags tg = (tg.getD []).map pyStrip := by
  cases tg with
  | none => rfl
  | some l => cases l <;> simp [strip_tags]

/-- Any exception raised during `add_entry` happens before `save_entries`
runs, so the file is exactly what it was. -/
theorem add_entry_error_state (ids : Nat → String) (fuel : Nat) (now : String)
    (f : FileContent) (t c : String) (tg : Option (List String)) (e : PyError)
    (f₂ : FileContent) (h : add_entry ids fuel now f t c tg = (.error e, f₂)) :
    f₂ = f := by
  unfold add_entry at h
  repeat' split at h
  all_goals first
    | (cases h; rfl)
    | exact absurd h (by simp)

/-- A successful `add_entry` saved exactly the loaded collection with the
newly constructed entry appended. -/
theorem add_entry_ok_state (ids : Nat → String) (fuel : Nat) (now : String)
    (f : FileContent) (t c : String) (tg : Option (List String))
    (f₂ : FileContent) (h : add_entry ids fuel now f t c tg = (.ok (), f₂)) :
    ∃ entries nid, load_entries f = .ok entries ∧
      find_fresh ids (get_existing_ids entries) 0 fuel = some nid ∧
      mkJournalEntry nid t c now (strip_tags tg) = .ok ⟨nid, t, c, now, strip_tags tg⟩ ∧
      f₂ = save_entries (entries ++ [⟨nid, t, c, now, strip_tags tg⟩]) := by
  unfold add_entry at h
  cases hload : load_entries f with
  | error e => simp [hload, Prod.mk.injEq] at h
  | ok entries =>
      simp only [hload] at h
      cases hfresh : find_fresh ids (get_existing_ids entries) 0 fuel with
      | none => simp [hfresh, Prod.mk.injEq] at h
      | some nid =>
          simp only [hfresh] at h
          cases hmk : mkJournalEntry nid t c now (strip_tags tg) with
          | error e2 => simp [hmk, Prod.mk.injEq] at h
          | ok entry =>
              simp only [hmk, Prod.mk.injEq] at h
              obtain ⟨he, hv⟩ := mkJournalEntry_ok_valid _ _ _ _ _ _ hmk
              subst he
              exact ⟨entries, nid, rfl, hfresh, hmk, h.2.symm⟩

theorem filter_ne_eq_self (es : List JournalEntry) (i : String)
    (h : i ∉ get_existing_ids es) : es.filter (fun e => e.id != i) = es := by
  rw [List.filter_eq_self]
  intro a ha
  rw [bne_iff_ne]
  intro heq
  exact h (heq ▸ List.mem_map_of_mem JournalEntry.id ha)

theorem filter_ne_length (es : List JournalEntry) (i : String)
    (hnd : (get_existing_ids es).Nodup) (hm : i ∈ get_existing_ids es) :
    (es.filter (fun e => e.id != i)).length + 1 = es.length := by
  induction es with
  | nil => simp [get_existing_ids] at hm
  | cons e es ih =>
      simp only [get_existing_ids, List.map_cons, List.nodup_cons] at hnd
      obtain ⟨hni, hnd2⟩ := hnd
      simp only [get_existing_ids, List.map_cons, List.mem_cons] at hm
      by_cases hei : e.id = i
      · rw [List.filter_cons_of_neg (by simp [hei])]
        rw [filter_ne_eq_self es i (by simpa [get_existing_ids, hei] using hni)]
        simp
      · rcases hm with hm1 | hm2
        · exact absurd hm1.symm hei
        · rw [List.filter_cons_of_pos (by simp [bne_iff_ne]; exact fun hx => hei hx)]
          simp only [List.length_cons]
          rw [ih hnd2 hm2]

/-- Filtered entries all satisfy what they satisfied in the original
collection (used to carry validity through a delete). -/
theorem mem_of_mem_filter_entries {es : List JournalEntry} {p : JournalEntry → Bool}
    {e : JournalEntry} (h : e ∈ es.filter p) : e ∈ es :=
  List.mem_of_mem_filter h

/-- Swapping the two bounded existentials of an `any` over `any`. -/
theorem any_swap {α β : Type} (l : List α) (m : List β) (p : α → β → Bool) :
    l.any (fun a => m.any (fun b => p a b)) = m.any (fun b => l.any (fun a => p a b)) := by
  rw [Bool.eq_iff_iff]
  simp only [List.any_eq_true]
  tauto

theorem mem_distinct_first (l : List String) (x : String) :
    x ∈ distinct_first l ↔ x ∈ l := by
  induction l with
  | nil => simp [distinct_first]
  | cons t ts ih =>
      simp only [distinct_first, List.mem_cons, List.mem_filter, bne_iff_ne]
      constructor
      · rintro (rfl | ⟨hx, _⟩)
        · exact .inl rfl
        · exact .inr (ih.mp hx)
      · rintro (rfl | hx)
        · exact .inl rfl
        · by_cases hxt : x = t
          · exact .inl hxt
          · exact .inr ⟨ih.mpr hx, hxt⟩

theorem pick_most_common_ge (cnt : String → Nat) :
    ∀ (ts : List String) (b r : String),
      pick_most_common cnt (some b) ts = some r →
      cnt b ≤ cnt r ∧ ∀ x ∈ ts, cnt x ≤ cnt r := by
  intro ts
  induction ts with
  | nil =>
      intro b r h
      simp only [pick_most_common, Option.some.injEq] at h
      subst h
      exact ⟨le_refl _, by simp⟩
  | cons t ts ih =>
      intro b r h
      simp only [pick_most_common] at h
      obtain ⟨hacc, hall⟩ := ih _ r h
      have hb : cnt b ≤ cnt (if cnt b < cnt t then t else b) := by
        split
        · omega
        · exact le_refl _
      have ht : cnt t ≤ cnt (if cnt b < cnt t then t else b) := by
        split
        · exact le_refl _
        · omega
      refine ⟨le_trans hb hacc, ?_⟩
      intro x hx
      rcases List.mem_cons.mp hx with rfl | hx2
      · exact le_trans ht hacc
      · exact hall x hx2

theorem pick_most_common_mem (cnt : String → Nat) :
    ∀ (ts : List String) (b r : String),
      pick_most_common cnt (some b) ts = some r → r = b ∨ r ∈ ts := by
  intro ts
  induction ts with
  | nil =>
      intro b r h
      simp only [pick_most_common, Option.some.injEq] at h
      exact .inl h.symm
  | cons t ts ih =>
      intro b r h
      simp only [pick_most_common] at h
      rcases ih _ r h with hr | hr
      · rw [hr]
        split
        · exact .inr (List.mem_cons_self t ts)
        · exact .inl rfl
      · exact .inr (List.mem_cons_of_mem t hr)

theorem pick_most_common_isSome (cnt : String → Nat) :
    ∀ (ts : List String) (b : String), ∃ r, pick_most_common cnt (some b) ts = some r := by
  intro ts
  induction ts with
  | nil => intro b; exact ⟨b, rfl⟩
  | cons t ts ih =>
      intro b
      simp only [pick_most_common]
      exact ih _

/-!
## Claim theorems
-/

/-- C1 (counterexample): the tag filter does not implement plain
case-insensitive equality against the requested tags — the code also
strips each requested tag of surrounding whitespace, so the request
`[" x "]` matches an entry tagged `"x"`, which the claim's match
relation (`filterByTags_spec`) excludes. -/
theorem search_entries_by_tags_strips_requested :
    search_entries_by_tags [entryX] [" x "] = [entryX] ∧
    filterByTags_spec [entryX] [" x "] = [] := by
  constructor <;> decide

/-- C1 (amended): `search_entries_by_tags` returns the input unchanged on
an empty request, and otherwise exactly the subsequence of entries having
at least one tag that, lowercased, equals some requested tag lowercased
and stripped of surrounding whitespace (OR across requested tags, OR
across entry tags). -/
theorem search_entries_by_tags_correct (entries : List JournalEntry)
    (tags : List String) :
    search_entries_by_tags entries tags = filterByTags_impl entries tags := by
  unfold search_entries_by_tags filterByTags_impl
  by_cases h : tags = []
  · rw [if_pos h, if_pos h]
  · rw [if_neg h, if_neg h]
    apply List.filter_congr
    intro e _
    rw [Bool.eq_iff_iff]
    simp only [List.any_eq_true, List.mem_map, List.contains_eq_any_beq, beq_iff_eq]
    constructor
    · rintro ⟨tl, ⟨rt, hrt, rfl⟩, ⟨el, ⟨et, het, rfl⟩, hel⟩⟩
      exact ⟨et, het, rt, hrt, hel.symm⟩
    · rintro ⟨et, het, rt, hrt, heq⟩
      exact ⟨pyStrip (pyLower rt), ⟨rt, hrt, rfl⟩, pyLower et, ⟨et, het, rfl⟩, heq.symm⟩

theorem search_entries_by_tags_correct_witness :
    search_entries_by_tags [entryX] ["X"] = filterByTags_impl [entryX] ["X"] :=
  search_entries_by_tags_correct [entryX] ["X"]

/-- C2: constructing a `JournalEntry` fails with a validation error
(`ValueError`) when the title has 51 or more characters or the content
201 or more; a 50-character title with a 200-character content succeeds
and yields exactly the given field values.  The check is the one in
`mkJournalEntry` (`__post_init__`), performed once at construction. -/
theorem journalEntry_length_validation (i t c d : String) (tags : List String) :
    (51 ≤ t.length ∨ 201 ≤ c.length →
      ∃ msg, mkJournalEntry i t c d tags = .error (.valueError msg)) ∧
    (t.length = 50 → c.length = 200 →
      mkJournalEntry i t c d tags = .ok ⟨i, t, c, d, tags⟩) := by
  refine ⟨mkJournalEntry_long_error i t c d tags, fun ht hc => ?_⟩
  exact (mkJournalEntry_ok_iff i t c d tags _).mpr ⟨rfl, by omega, by omega⟩

set_option maxRecDepth 8192 in
theorem journalEntry_length_validation_witness :
    (∃ msg, mkJournalEntry "i" (aChars 51) "" "d" [] = .error (.valueError msg)) ∧
    (∃ msg, mkJournalEntry "i" "" (aChars 201) "d" [] = .error (.valueError msg)) ∧
    mkJournalEntry "i" (aChars 50) (aChars 200) "d" [] =
      .ok ⟨"i", aChars 50, aChars 200, "d", []⟩ :=
  ⟨(journalEntry_length_validation "i" (aChars 51) "" "d" []).1 (Or.inl (by decide)),
   (journalEntry_length_validation "i" "" (aChars 201) "d" []).1 (Or.inr (by decide)),
   (journalEntry_length_validation "i" (aChars 50) (aChars 200) "d" []).2
     (by decide) (by decide)⟩

/-- C3 (counterexample): a backing file whose content parses as JSON but
is not an array of entry objects — here the array `[1]` — makes
`load_entries` raise `TypeError` (`JournalEntry(**1)` on a non-mapping),
instead of returning the empty sequence; only `JSONDecodeError` is
caught. -/
theorem load_entries_wrong_structure_raises :
    load_entries (.json (.jarr [.jnum 1])) = .error .typeError ∧
    load_entries (.json (.jarr [.jnum 1])) ≠ .ok [] := by
  refine ⟨rfl, fun h => ?_⟩
  rw [show load_entries (.json (.jarr [.jnum 1])) = .error .typeError from rfl] at h
  exact Except.noConfusion h

/-- C3 (amended): an empty backing file and a syntactically invalid one
degrade to the empty collection without failing the caller — the
never-fails guarantee is narrowed to the contents whose `json.load`
raises the caught `JSONDecodeError`. -/
theorem load_entries_syntax_failure_empty :
    load_entries .empty = .ok [] ∧ load_entries .invalidSyntax = .ok [] :=
  ⟨rfl, rfl⟩

/-- C4: `add_entry` is atomic — any failure (in particular the
`ValueError` raised when title or content exceeds its limit) leaves the
persisted file exactly as it was, since the exception aborts the call
before `save_entries`; a successful call saves exactly the loaded
collection with the new entry appended at the end. -/
theorem add_entry_atomic (ids : Nat → String) (fuel : Nat) (now : String)
    (f : FileContent) (t c : String) (tg : Option (List String)) :
    (∀ e f₂, add_entry ids fuel now f t c tg = (.error e, f₂) → f₂ = f) ∧
    (∀ f₂, add_entry ids fuel now f t c tg = (.ok (), f₂) →
      ∃ entries nid, load_entries f = .ok entries ∧
        f₂ = save_entries (entries ++ [⟨nid, t, c, now, strip_tags tg⟩])) ∧
    (∀ entries nid, load_entries f = .ok entries →
      find_fresh ids (get_existing_ids entries) 0 fuel = some nid →
      51 ≤ t.length ∨ 201 ≤ c.length →
      ∃ msg, add_entry ids fuel now f t c tg = (.error (.valueError msg), f)) := by
  refine ⟨fun e f₂ h => add_entry_error_state ids fuel now f t c tg e f₂ h,
    fun f₂ h => ?_, fun entries nid hload hfresh hlen => ?_⟩
  · obtain ⟨entries, nid, hload, _, _, hsave⟩ :=
      add_entry_ok_state ids fuel now f t c tg f₂ h
    exact ⟨entries, nid, hload, hsave⟩
  · obtain ⟨msg, hmsg⟩ := mkJournalEntry_long_error nid t c now (strip_tags tg) hlen
    refine ⟨msg, ?_⟩
    unfold add_entry
    simp only [hload, hfresh, hmsg]

theorem add_entry_atomic_witness :
    (∃ entries nid,
      load_entries (save_entries []) = .ok entries ∧
      (add_entry (fun _ => "w4") 1 "d" (save_entries []) "T" "C" (some [" a "])).2 =
        save_entries (entries ++ [⟨nid, "T", "C", "d", strip_tags (some [" a "])⟩])) ∧
    (∃ msg, add_entry (fun _ => "w4") 1 "d" (save_entries []) (aChars 51) "C" none =
      (.error (.valueError msg), save_entries [])) :=
  ⟨(add_entry_atomic (fun _ => "w4") 1 "d" (save_entries []) "T" "C" (some [" a "])).2.1
      (add_entry (fun _ => "w4") 1 "d" (save_entries []) "T" "C" (some [" a "])).2 rfl,
   (add_entry_atomic (fun _ => "w4") 1 "d" (save_entries []) (aChars 51) "C" none).2.2
      [] "w4" rfl rfl (Or.inl (by decide))⟩

/-- C5: starting from a collection with pairwise-distinct ids, any
sequence of `add` calls preserves distinctness — the retry loop
(`find_fresh`) never hands out an id already in the loaded collection,
so the appended entry keeps the ids `Nodup`. -/
theorem add_sequence_unique_ids (calls : List AddCall) (f : FileContent)
    (entries : List JournalEntry) (h : load_entries f = .ok entries)
    (hnd : (get_existing_ids entries).Nodup) :
    ∃ entries2, load_entries (run_adds calls f) = .ok entries2 ∧
      (get_existing_ids entries2).Nodup := by
  induction calls generalizing f entries with
  | nil => exact ⟨entries, h, hnd⟩
  | cons call cs ih =>
      simp only [run_adds]
      rcases hA : add_entry call.ids call.fuel call.now f call.title call.content call.tags
        with ⟨res, f₂⟩
      cases res with
      | error e =>
          have hstate : f₂ = f := add_entry_error_state _ _ _ _ _ _ _ _ _ hA
          simp only [hA]
          rw [hstate]
          exact ih f entries h hnd
      | ok u =>
          cases u
          obtain ⟨entries1, nid, hload, hfresh, hmk, hsave⟩ :=
            add_entry_ok_state _ _ _ _ _ _ _ _ hA
          rw [h] at hload
          cases hload
          have hfreshmem :=
            find_fresh_not_mem call.ids (get_existing_ids entries) call.fuel 0 nid hfresh
          have hvalid : ∀ e ∈ entries ++
              [(⟨nid, call.title, call.content, call.now, strip_tags call.tags⟩ : JournalEntry)],
              validEntry e := by
            intro e he
            rcases List.mem_append.mp he with he1 | he2
            · exact load_entries_valid f entries h e he1
            · rw [List.mem_singleton] at he2
              subst he2
              exact (mkJournalEntry_ok_valid _ _ _ _ _ _ hmk).2
          have hload2 : load_entries f₂ = .ok (entries ++
              [(⟨nid, call.title, call.content, call.now, strip_tags call.tags⟩ : JournalEntry)]) := by
            rw [hsave]
            exact load_entries_save_entries _ hvalid
          have hnd2 : (get_existing_ids (entries ++
              [(⟨nid, call.title, call.content, call.now, strip_tags call.tags⟩ : JournalEntry)])).Nodup := by
            simp only [get_existing_ids, List.map_append, List.map_cons, List.map_nil]
            rw [List.nodup_append]
            refine ⟨hnd, List.nodup_singleton _, ?_⟩
            intro a ha hb
            rw [List.mem_singleton] at hb
            subst hb
            exact hfreshmem ha
          simp only [hA]
          exact ih f₂ _ hload2 hnd2

theorem add_sequence_unique_ids_witness :
    ∃ entries2,
      load_entries (run_adds [⟨fun _ => "w5", 1, "d", "T", "C", none⟩] (save_entries []))
        = .ok entries2 ∧ (get_existing_ids entries2).Nodup :=
  add_sequence_unique_ids [⟨fun _ => "w5", 1, "d", "T", "C", none⟩] (save_entries []) []
    rfl (by simp [get_existing_ids])

/-- C6 (counterexample): on a store holding two entries that share the id
`"x"` — a well-formed JSON store, over which the claim quantifies —
`delete("x")` succeeds but removes both entries: two entries before, zero
after, not `count - 1`. -/
theorem delete_entry_removes_all_matching :
    load_entries (save_entries [dupA, dupB]) = .ok [dupA, dupB] ∧
    (delete_entry (save_entries [dupA, dupB]) "x").1 = .ok () ∧
    load_entries ((delete_entry (save_entries [dupA, dupB]) "x").2) = .ok [] :=
  ⟨rfl, rfl, rfl⟩

/-- C6 (amended): on a collection with pairwise-distinct ids, deleting an
existing id succeeds, persists exactly the other entries in their
original order (one fewer, none carrying the id); deleting a missing id
raises the not-found `ValueError` and leaves the file untouched. -/
theorem delete_entry_correct (f : FileContent) (entries : List JournalEntry)
    (i : String) (h : load_entries f = .ok entries)
    (hnd : (get_existing_ids entries).Nodup) :
    (i ∈ get_existing_ids entries →
      (delete_entry f i).1 = .ok () ∧
      load_entries (delete_entry f i).2 = .ok (entries.filter (fun e => e.id != i)) ∧
      (entries.filter (fun e => e.id != i)).length + 1 = entries.length ∧
      (∀ e ∈ entries.filter (fun e => e.id != i), e.id ≠ i) ∧
      (entries.filter (fun e => e.id != i)).Sublist entries) ∧
    (i ∉ get_existing_ids entries →
      (∃ msg, (delete_entry f i).1 = .error (.valueError msg)) ∧
      (delete_entry f i).2 = f) := by
  have hdel : delete_entry f i =
      if i ∈ get_existing_ids entries then
        (.ok (), save_entries (entries.filter (fun e => e.id != i)))
      else (.error (.valueError ("Entry with ID '" ++ i ++ "' not found.")), f) := by
    unfold delete_entry
    simp only [h]
  constructor
  · intro hm
    rw [hdel, if_pos hm]
    refine ⟨rfl, ?_, filter_ne_length entries i hnd hm, ?_, List.filter_sublist entries⟩
    · exact load_entries_save_entries _ (fun e he =>
        load_entries_valid f entries h e (List.mem_of_mem_filter he))
    · intro e he
      have hbe := (List.mem_filter.mp he).2
      rwa [bne_iff_ne] at hbe
  · intro hm
    rw [hdel, if_neg hm]
    exact ⟨⟨_, rfl⟩, rfl⟩

theorem delete_entry_correct_witness :
    ((delete_entry (save_entries [entryX]) "i1").1 = .ok () ∧
      load_entries (delete_entry (save_entries [entryX]) "i1").2 =
        .ok ([entryX].filter (fun e => e.id != "i1")) ∧
      ([entryX].filter (fun e => e.id != "i1")).length + 1 = [entryX].length ∧
      (∀ e ∈ [entryX].filter (fun e => e.id != "i1"), e.id ≠ "i1") ∧
      ([entryX].filter (fun e => e.id != "i1")).Sublist [entryX]) ∧
    ((∃ msg, (delete_entry (save_entries [entryX]) "zz").1 = .error (.valueError msg)) ∧
      (delete_entry (save_entries [entryX]) "zz").2 = save_entries [entryX]) :=
  ⟨(delete_entry_correct (save_entries [entryX]) [entryX] "i1" rfl
      (by simp [get_existing_ids])).1 (by decide),
   (delete_entry_correct (save_entries [entryX]) [entryX] "zz" rfl
      (by simp [get_existing_ids])).2 (by decide)⟩

/-- C7: round-trip — loading immediately after saving a valid collection
yields the same entries, in the same order, with the same field values;
in particular saving what was just loaded reproduces the store's
semantic content. -/
theorem save_then_load_roundtrip :
    (∀ es : List JournalEntry, (∀ e ∈ es, validEntry e) →
      load_entries (save_entries es) = .ok es) ∧
    (∀ (f : FileContent) (es : List JournalEntry), load_entries f = .ok es →
      load_entries (save_entries es) = .ok es) :=
  ⟨load_entries_save_entries,
   fun f es h => load_entries_save_entries es (load_entries_valid f es h)⟩

theorem save_then_load_roundtrip_witness :
    load_entries (save_entries [dupA]) = .ok [dupA] :=
  save_then_load_roundtrip.1 [dupA] (by decide)

/-- C8: whenever some entry has a tag, `most_common_tag` returns a tag
occurring in the collection whose occurrence count is maximal among all
strings; when no entry has any tag it raises `IndexError` instead of
returning a value. -/
theorem most_common_tag_max (entries : List JournalEntry) :
    (all_tags entries ≠ [] →
      ∃ t, most_common_tag entries = .ok t ∧ t ∈ all_tags entries ∧
        ∀ s, (all_tags entries).count s ≤ (all_tags entries).count t) ∧
    (all_tags entries = [] → most_common_tag entries = .error .indexError) := by
  constructor
  · intro hne
    cases hd : distinct_first (all_tags entries) with
    | nil =>
        obtain ⟨x, hx⟩ := List.exists_mem_of_ne_nil _ hne
        have hx2 := (mem_distinct_first (all_tags entries) x).mpr hx
        rw [hd] at hx2
        exact absurd hx2 (by simp)
    | cons t ts =>
        obtain ⟨r, hr⟩ := pick_most_common_isSome (fun s => (all_tags entries).count s) ts t
        have hmost : most_common_tag entries = .ok r := by
          unfold most_common_tag
          rw [hd]
          simp only [pick_most_common]
          rw [hr]
        obtain ⟨hge_t, hge_ts⟩ := pick_most_common_ge _ ts t r hr
        have hrmem : r ∈ all_tags entries := by
          rcases pick_most_common_mem _ ts t r hr with rfl | hrts
          · exact (mem_distinct_first _ _).mp (hd ▸ List.mem_cons_self _ _)
          · exact (mem_distinct_first _ _).mp (hd ▸ List.mem_cons_of_mem _ hrts)
        refine ⟨r, hmost, hrmem, fun s => ?_⟩
        by_cases hs : s ∈ all_tags entries
        · have hsd : s ∈ distinct_first (all_tags entries) :=
            (mem_distinct_first _ _).mpr hs
          rw [hd] at hsd
          rcases List.mem_cons.mp hsd with rfl | hsts
          · exact hge_t
          · exact hge_ts s hsts
        · rw [List.count_eq_zero.mpr hs]
          exact Nat.zero_le _
  · intro h
    unfold most_common_tag
    rw [h]
    rfl

theorem most_common_tag_max_witness :
    ∃ t, most_common_tag [⟨"i", "t", "c", "d", ["b", "a", "a"]⟩] = .ok t ∧
      t ∈ all_tags [⟨"i", "t", "c", "d", ["b", "a", "a"]⟩] ∧
      ∀ s, (all_tags [⟨"i", "t", "c", "d", ["b", "a", "a"]⟩]).count s ≤
        (all_tags [⟨"i", "t", "c", "d", ["b", "a", "a"]⟩]).count t :=
  (most_common_tag_max [⟨"i", "t", "c", "d", ["b", "a", "a"]⟩]).1 (by decide)

/-- C9 (counterexample): `add_entry` only strips tags, it never discards
the empty results — adding with the all-whitespace tag `"  "` succeeds
and persists an entry whose stored tag is the empty string, so stored
tags are not all non-empty. -/
theorem add_entry_stores_empty_tag :
    (add_entry (fun _ => "id0") 1 "d" (save_entries []) "T" "C" (some ["  "])).1 = .ok () ∧
    ∃ e, load_entries (add_entry (fun _ => "id0") 1 "d" (save_entries []) "T" "C"
        (some ["  "])).2 = .ok [e] ∧ "" ∈ e.tags :=
  ⟨rfl, ⟨"id0", "T", "C", "d", [""]⟩, rfl, by simp⟩

/-- C9 (amended): on every successful `add_entry`, the stored tags are
exactly the input tags each stripped of surrounding whitespace — each
stored tag is the strip of some input tag, but an all-whitespace input
tag is stored as the empty string rather than dropped. -/
theorem add_entry_tags_stripped (ids : Nat → String) (fuel : Nat) (now : String)
    (f : FileContent) (t c : String) (tg : Option (List String)) (f₂ : FileContent)
    (h : add_entry ids fuel now f t c tg = (.ok (), f₂)) :
    ∃ entries nid,
      f₂ = save_entries (entries ++ [⟨nid, t, c, now, (tg.getD []).map pyStrip⟩]) ∧
      ∀ s ∈ (tg.getD []).map pyStrip, ∃ s₀ ∈ tg.getD [], s = pyStrip s₀ := by
  obtain ⟨entries, nid, _, _, _, hsave⟩ := add_entry_ok_state ids fuel now f t c tg f₂ h
  rw [strip_tags_eq_map] at hsave
  refine ⟨entries, nid, hsave, ?_⟩
  intro s hs
  obtain ⟨s₀, hs₀, rfl⟩ := List.mem_map.mp hs
  exact ⟨s₀, hs₀, rfl⟩

theorem add_entry_tags_stripped_witness :
    ∃ entries nid,
      (add_entry (fun _ => "w9") 1 "d" (save_entries []) "T" "C" (some [" a ", "  "])).2 =
        save_entries (entries ++ [⟨nid, "T", "C", "d",
          ((some [" a ", "  "] : Option (List String)).getD []).map pyStrip⟩]) ∧
      ∀ s ∈ ((some [" a ", "  "] : Option (List String)).getD []).map pyStrip,
        ∃ s₀ ∈ (some [" a ", "  "] : Option (List String)).getD [], s = pyStrip s₀ :=
  add_entry_tags_stripped (fun _ => "w9") 1 "d" (save_entries []) "T" "C"
    (some [" a ", "  "]) _ rfl

/-- C10: the prototype `JournalDatabase.search_entries_by_tags` returns
the full loaded collection when the requested tags are empty, and `None`
for every non-empty request — the filtering branch is commented out and
the function falls through. -/
theorem db_search_entries_by_tags_spec (f : FileContent) (tags : List String)
    (entries : List JournalEntry) (h : load_entries f = .ok entries) :
    (tags = [] → JournalDatabase.search_entries_by_tags f tags = .ok (some entries)) ∧
    (tags ≠ [] → JournalDatabase.search_entries_by_tags f tags = .ok none) := by
  unfold JournalDatabase.search_entries_by_tags
  simp only [h]
  constructor
  · intro ht
    rw [if_pos ht]
  · intro ht
    rw [if_neg ht]

theorem db_search_entries_by_tags_spec_witness :
    JournalDatabase.search_entries_by_tags (save_entries [dupA]) [] = .ok (some [dupA]) ∧
    JournalDatabase.search_entries_by_tags (save_entries [dupA]) ["x"] = .ok none :=
  ⟨(db_search_entries_by_tags_spec (save_entries [dupA]) [] [dupA] rfl).1 rfl,
   (db_search_entries_by_tags_spec (save_entries [dupA]) ["x"] [dupA] rfl).2 (by simp)⟩

end DevJournal
